import Mathlib

/-!
# Shallow embedding of `tetsy-wordlist` (src/src/lib.rs)

The crate exposes three items:

* `WORDS : &[&str]` — the dictionary, compiled in from `res/wordlist.json`
  (the JSON file itself is not part of the sources here; the spec describes
  it as a list of nonempty lowercase ASCII words);
* `random_phrase (no_of_words : usize) -> String` — draws `no_of_words`
  words at random from `WORDS` (`WORDS.choose(&mut rng).unwrap()`), folds
  them into a string by prepending a space before each word, and strips
  the leading whitespace (`trim_start`);
* `validate_phrase (phrase : &str, expected_no_of_words : usize)
  -> Result<(), Error>` — splits `phrase` on runs of whitespace, fails with
  `Error::WordNotFromDictionary` at the first token outside the dictionary,
  then fails with `Error::PhraseTooShort` when fewer than
  `expected_no_of_words` tokens were seen.

Strings are modelled as `List Char`.  The dictionary is a parameter
`WORDS : List Word` of every definition, because its contents live in a
resource file outside the sources; properties of its words that claims
need (nonempty, lowercase) are stated as explicit hypotheses through
`DictWord`.  Randomness is modelled by a function `pick : Nat → Nat`
giving the raw random draw used for the `i`-th word; `SliceRandom::choose`
returns `None` exactly on an empty slice, and otherwise an element at an
index below the length, which we model as `pick i` reduced modulo the
length.  The `.unwrap()` panic is modelled by `Option`: `random_phrase`
returns `none` exactly when some draw panics.
-/

/-- A Rust `&str` value, modelled as its list of characters. -/
abbrev Word := List Char

/-- `Modelled from the spec:` the dictionary file `res/wordlist.json` is not
under the sources (only `include!("../res/wordlist.json")` is); the spec
describes its entries as nonempty lowercase ASCII words ("ordered sequence
of unique lowercase word strings", "lowercase ASCII string literals").
`DictWord w` says `w` is such a word. -/
def DictWord (w : Word) : Prop := w ≠ [] ∧ ∀ c ∈ w, c.isLower

instance : DecidablePred DictWord := fun w =>
  decidable_of_iff (w ≠ [] ∧ ∀ c ∈ w, c.isLower) Iff.rfl

/-! ## `random_phrase` -/

/-- Rust `SliceRandom::choose`: `None` on an empty slice, otherwise the
element at a random index below the length (`idx` is the raw random draw,
reduced modulo the length). -/
def choose (l : List Word) (idx : Nat) : Option Word :=
  if l.isEmpty then none else some (l.getD (idx % l.length) [])

/-- The sequence of drawn words of
`(0..no_of_words).map(|_| WORDS.choose(&mut rng).unwrap())`, starting at
draw number `i` with `count` draws left; `none` when a draw panics
(`choose` returned `None`). -/
def chosenFrom (WORDS : List Word) (pick : Nat → Nat) (i : Nat) : Nat → Option (List Word)
  | 0 => some []
  | count + 1 =>
    match choose WORDS (pick i), chosenFrom WORDS pick (i + 1) count with
    | some w, some ws => some (w :: ws)
    | _, _ => none

/-- All `no_of_words` random draws of `random_phrase`. -/
def chosenWords (WORDS : List Word) (pick : Nat → Nat) (n : Nat) : Option (List Word) :=
  chosenFrom WORDS pick 0 n

/-- Rust `str::trim_start` (drop leading whitespace). -/
def trimStart (cs : List Char) : List Char := cs.dropWhile Char.isWhitespace

/-- The fold of `random_phrase`:
`fold(String::new(), |mut acc, word| { acc.push_str(" "); acc.push_str(word); acc })`. -/
def spaceFold (ws : List Word) : List Char :=
  ws.foldl (fun acc w => acc ++ (' ' :: w)) []

/-- `random_phrase` of src/src/lib.rs: draw `n` words (each
`WORDS.choose(&mut rng).unwrap()`), fold them with a space pushed before
each word, and `trim_start` the result.  `none` models the panic of
`.unwrap()` on an empty dictionary. -/
def random_phrase (WORDS : List Word) (pick : Nat → Nat) (n : Nat) : Option (List Char) :=
  (chosenWords WORDS pick n).map (fun ws => trimStart (spaceFold ws))

/-! ## `Error` and its `Display` -/

/-- The `Error` enum of src/src/lib.rs. -/
inductive Error where
  /-- Phrase is shorter than it was expected. -/
  | PhraseTooShort : Nat → Error
  /-- Phrase contains a word that does not come from the dictionary. -/
  | WordNotFromDictionary : Word → Error
deriving DecidableEq

/-- The `fmt::Display` impl of `Error`.  Both arms use `writeln!`, which
writes the formatted text and then a newline character. -/
def Error.display : Error → List Char
  | .PhraseTooShort len =>
      ("The phrase is too short (".data ++ (Nat.repr len).data ++ ")".data) ++ ['\n']
  | .WordNotFromDictionary word =>
      ("The word '".data ++ word ++ "' does not come from the dictionary.".data) ++ ['\n']

/-! ## `validate_phrase` -/

/-- Rust `str::split_whitespace`, on character lists: split on runs of
whitespace; no empty tokens; leading and trailing whitespace ignored.
`acc` holds the characters of the token being read, in reverse. -/
def splitWSAux : List Char → List Char → List Word
  | [], acc => if acc = [] then [] else [acc.reverse]
  | c :: cs, acc =>
    if c.isWhitespace then
      if acc = [] then splitWSAux cs [] else acc.reverse :: splitWSAux cs []
    else splitWSAux cs (c :: acc)

/-- Rust `str::split_whitespace` (the token sequence it yields). -/
def splitWhitespace (cs : List Char) : List Word := splitWSAux cs []

/-- The loop of `validate_phrase`: `len` counts the tokens seen so far;
each token is looked up in `WORD_SET` (a `HashSet` with exactly the
membership of `WORDS`); the first token outside it aborts the loop.
Returns the final `len` when the loop completes. -/
def validateLoop (WORDS : List Word) (len : Nat) : List Word → Except Error Nat
  | [] => .ok len
  | w :: ws =>
    if WORDS.contains w then validateLoop WORDS (len + 1) ws
    else .error (.WordNotFromDictionary w)

/-- `validate_phrase` of src/src/lib.rs: run the loop over
`phrase.split_whitespace()`, then compare the count with
`expected_no_of_words`. -/
def validate_phrase (WORDS : List Word) (phrase : List Char) (expected_no_of_words : Nat) :
    Except Error Unit :=
  match validateLoop WORDS 0 (splitWhitespace phrase) with
  | .error e => .error e
  | .ok len =>
    if len < expected_no_of_words then .error (.PhraseTooShort len)
    else .ok ()

deriving instance DecidableEq for Except

/-! ## Derived shapes used to describe the code

`sepJoin` is the single-space join that `random_phrase` is proved to
produce; `splitOnSpace` is Rust `str::split(" ")` (used by the crate test
`should_produce_right_number_of_words`): it yields the possibly-empty
segments between single spaces, and the empty string yields one empty
segment, never zero; `specMessage` is the message template exactly as the
spec words it, to compare with the `Display` implementation. -/

/-- The drawn words joined by a single space each. -/
def sepJoin : List Word → List Char
  | [] => []
  | [w] => w
  | w :: w2 :: ws => w ++ ' ' :: sepJoin (w2 :: ws)

/-- Whether a list of characters starts with whitespace (or is empty):
the shape of the remainder after a token inside a larger phrase. -/
def headWS : List Char → Prop
  | [] => True
  | c :: _ => c.isWhitespace = true

/-- Rust `str::split(" ")`: `acc` holds the characters of the current
segment, in reverse.  Every input yields at least one segment. -/
def splitOnSpaceAux : List Char → List Char → List Word
  | [], acc => [acc.reverse]
  | c :: cs, acc =>
    if c = ' ' then acc.reverse :: splitOnSpaceAux cs []
    else splitOnSpaceAux cs (c :: acc)

/-- The segments of Rust `str::split(" ")`. -/
def splitOnSpace (cs : List Char) : List Word := splitOnSpaceAux cs []

/-- The message templates exactly as the spec words them, with no
trailing newline: "The phrase is too short (<n>)" and
"The word '<word>' does not come from the dictionary.". -/
def specMessage : Error → List Char
  | .PhraseTooShort n =>
      "The phrase is too short (".data ++ (Nat.repr n).data ++ ")".data
  | .WordNotFromDictionary w =>
      "The word '".data ++ w ++ "' does not come from the dictionary.".data

/-! ## Sanity checks on concrete inputs (mirroring the crate tests) -/

example : splitWhitespace "ab  cd ".data = ["ab".data, "cd".data] := by decide

example : validate_phrase ["xxx".data] "xxx".data 0 = .ok () := by decide

example : validate_phrase ["abc".data] "xxx".data 0 =
    .error (.WordNotFromDictionary "xxx".data) := by decide

example : validate_phrase ["ab".data] "ab".data 2 = .error (.PhraseTooShort 1) := by decide

example : random_phrase ["aa".data, "bb".data] (fun i => i) 3 =
    some "aa bb aa".data := by decide

example : random_phrase [] (fun i => i) 2 = none := by decide

example : random_phrase [] (fun i => i) 0 = some [] := by decide

example : Error.display (.PhraseTooShort 10) = "The phrase is too short (10)\n".data := by
  decide

/-! ## Lemmas about the validator -/

theorem contains_eq_true_iff_mem (WORDS : List Word) (w : Word) :
    WORDS.contains w = true ↔ w ∈ WORDS := by
  simp [List.contains]

theorem validateLoop_ok_iff (WORDS : List Word) (ts : List Word) (k m : Nat) :
    validateLoop WORDS k ts = .ok m ↔ ((∀ t ∈ ts, t ∈ WORDS) ∧ m = k + ts.length) := by
  induction ts generalizing k with
  | nil => simp [validateLoop, eq_comm]
  | cons w ws ih =>
    simp only [validateLoop]
    by_cases hw : WORDS.contains w = true
    · rw [if_pos hw, ih]
      have hwmem : w ∈ WORDS := (contains_eq_true_iff_mem WORDS w).1 hw
      simp only [List.forall_mem_cons, hwmem, true_and, List.length_cons]
      constructor
      · rintro ⟨h1, h2⟩
        exact ⟨h1, by omega⟩
      · rintro ⟨h1, h2⟩
        exact ⟨h1, by omega⟩
    · rw [if_neg hw]
      constructor
      · intro h
        exact absurd h (by simp)
      · rintro ⟨h1, -⟩
        exact absurd
          ((contains_eq_true_iff_mem WORDS w).2 (h1 w (List.mem_cons_self w ws))) hw

theorem validateLoop_err_of_find (WORDS : List Word) (ts : List Word) (k : Nat) (w : Word)
    (h : ts.find? (fun t => !(WORDS.contains t)) = some w) :
    validateLoop WORDS k ts = .error (.WordNotFromDictionary w) := by
  induction ts generalizing k with
  | nil => simp [List.find?] at h
  | cons t ts ih =>
    by_cases ht : WORDS.contains t = true
    · rw [List.find?_cons_of_neg _
        (by simp only [ht, Bool.not_true]; exact Bool.false_ne_true)] at h
      simp only [validateLoop]
      rw [if_pos ht]
      exact ih (k + 1) h
    · have ht2 : WORDS.contains t = false := by
        simp only [Bool.not_eq_true] at ht
        exact ht
      rw [List.find?_cons_of_pos _ (by simp only [ht2, Bool.not_false])] at h
      cases h
      simp only [validateLoop]
      rw [if_neg ht]

theorem validate_ok_iff_mem (WORDS : List Word) (phrase : List Char) (m : Nat) :
    validate_phrase WORDS phrase m = .ok () ↔
      ((∀ t ∈ splitWhitespace phrase, t ∈ WORDS) ∧
        m ≤ (splitWhitespace phrase).length) := by
  unfold validate_phrase
  cases hloop : validateLoop WORDS 0 (splitWhitespace phrase) with
  | error e =>
    dsimp only
    constructor
    · intro h
      exact absurd h (by simp)
    · rintro ⟨hall, -⟩
      have h2 : validateLoop WORDS 0 (splitWhitespace phrase) =
          .ok (0 + (splitWhitespace phrase).length) :=
        (validateLoop_ok_iff _ _ _ _).2 ⟨hall, rfl⟩
      rw [hloop] at h2
      exact absurd h2 (by simp)
  | ok len =>
    dsimp only
    obtain ⟨hall, hlen⟩ := (validateLoop_ok_iff _ _ _ _).1 hloop
    by_cases hm : len < m
    · rw [if_pos hm]
      constructor
      · intro h
        exact absurd h (by simp)
      · rintro ⟨-, hle⟩
        exact absurd hle (by omega)
    · rw [if_neg hm]
      exact ⟨fun _ => ⟨hall, by omega⟩, fun _ => rfl⟩

/-- C1: `validate_phrase(phrase, expected_min)` returns success if and only
if every token of `phrase` (split on runs of whitespace, consecutive
whitespace collapsed, leading and trailing whitespace ignored) is a member
of the dictionary AND the token count is at least `expected_min`. -/
theorem validate_phrase_ok_iff (WORDS : List Word) (phrase : List Char) (m : Nat) :
    validate_phrase WORDS phrase m = .ok () ↔
      ((∀ t ∈ splitWhitespace phrase, t ∈ WORDS) ∧
        m ≤ (splitWhitespace phrase).length) :=
  validate_ok_iff_mem WORDS phrase m

/-- C2: whenever some token of the phrase is outside the dictionary,
`validate_phrase` fails with `WordNotFromDictionary` carrying the first
(leftmost) offending token, whatever `expected_min` is — in particular the
membership failure takes precedence over `PhraseTooShort` even when the
phrase is also too short. -/
theorem validate_phrase_first_offender (WORDS : List Word) (phrase : List Char) (m : Nat)
    (w : Word)
    (h : (splitWhitespace phrase).find? (fun t => !(WORDS.contains t)) = some w) :
    validate_phrase WORDS phrase m = .error (.WordNotFromDictionary w) := by
  unfold validate_phrase
  rw [validateLoop_err_of_find WORDS _ 0 w h]

/-- Witness for C2: in the dictionary `["ab", "cd"]`, the phrase
`"ab xx cd"` has `"xx"` as its first token outside the dictionary, and
validation against a minimum of 5 (the phrase is also shorter than 5)
reports `WordNotFromDictionary "xx"`. -/
theorem validate_phrase_first_offender_witness :
    validate_phrase ["ab".data, "cd".data] "ab xx cd".data 5 =
      .error (.WordNotFromDictionary "xx".data) :=
  validate_phrase_first_offender ["ab".data, "cd".data] "ab xx cd".data 5 "xx".data
    (by decide)

theorem validate_too_short_of (WORDS : List Word) (phrase : List Char) (m : Nat)
    (hall : ∀ t ∈ splitWhitespace phrase, t ∈ WORDS)
    (hlen : (splitWhitespace phrase).length < m) :
    validate_phrase WORDS phrase m =
      .error (.PhraseTooShort (splitWhitespace phrase).length) := by
  unfold validate_phrase
  rw [(validateLoop_ok_iff WORDS (splitWhitespace phrase) 0
    (0 + (splitWhitespace phrase).length)).2 ⟨hall, rfl⟩]
  dsimp only
  rw [if_pos (by omega)]
  norm_num

/-- C7: when every token of the phrase belongs to the dictionary but the
token count (after whitespace collapsing) is strictly below `expected_min`,
`validate_phrase` fails with `PhraseTooShort` carrying exactly that token
count. -/
theorem validate_phrase_too_short (WORDS : List Word) (phrase : List Char) (m : Nat)
    (hall : ∀ t ∈ splitWhitespace phrase, t ∈ WORDS)
    (hlen : (splitWhitespace phrase).length < m) :
    validate_phrase WORDS phrase m =
      .error (.PhraseTooShort (splitWhitespace phrase).length) :=
  validate_too_short_of WORDS phrase m hall hlen

/-- Witness for C7: the two-token phrase `"ab cd"` over the dictionary
`["ab", "cd"]`, validated against a minimum of 3, reports
`PhraseTooShort 2`. -/
theorem validate_phrase_too_short_witness :
    validate_phrase ["ab".data, "cd".data] "ab cd".data 3 =
      .error (.PhraseTooShort 2) := by
  have h := validate_phrase_too_short ["ab".data, "cd".data] "ab cd".data 3
    (by decide) (by decide)
  simpa using h

theorem splitWSAux_all_whitespace (cs : List Char)
    (h : ∀ c ∈ cs, c.isWhitespace = true) : splitWSAux cs [] = [] := by
  induction cs with
  | nil => rfl
  | cons c cs ih =>
    have hc : c.isWhitespace = true := h c (List.mem_cons_self c cs)
    simp only [splitWSAux, hc, if_pos rfl, if_true]
    exact ih (fun x hx => h x (List.mem_cons_of_mem c hx))

/-- C10: a phrase made only of whitespace characters (the empty phrase
included) has zero tokens; it validates successfully against a minimum of
0, and against any minimum `m ≥ 1` it fails with `PhraseTooShort 0`. -/
theorem validate_phrase_whitespace_only (WORDS : List Word) (phrase : List Char) (m : Nat)
    (h : ∀ c ∈ phrase, c.isWhitespace = true) :
    validate_phrase WORDS phrase 0 = .ok () ∧
      (1 ≤ m → validate_phrase WORDS phrase m = .error (.PhraseTooShort 0)) := by
  have hsplit : splitWhitespace phrase = [] := splitWSAux_all_whitespace phrase h
  constructor
  · exact (validate_ok_iff_mem WORDS phrase 0).2 (by simp [hsplit])
  · intro hm
    have := validate_too_short_of WORDS phrase m (by simp [hsplit])
      (by simp [hsplit]; omega)
    simpa [hsplit] using this

/-- Witness for C10: the phrase of a space, a tab and a newline validates
against minimum 0 and reports `PhraseTooShort 0` against minimum 3. -/
theorem validate_phrase_whitespace_only_witness :
    validate_phrase ["ab".data] [' ', '\t', '\n'] 0 = .ok () ∧
      validate_phrase ["ab".data] [' ', '\t', '\n'] 3 = .error (.PhraseTooShort 0) := by
  have h := validate_phrase_whitespace_only ["ab".data] [' ', '\t', '\n'] 3 (by decide)
  exact ⟨h.1, h.2 (by decide)⟩

/-! ## Lemmas about the generator

The shape of the string built by `random_phrase` is captured by `sepJoin`:
the drawn words joined by exactly one space, with nothing before the first
word and nothing after the last. -/

theorem sepJoin_cons_cons (w w2 : Word) (ws : List Word) :
    sepJoin (w :: w2 :: ws) = w ++ ' ' :: sepJoin (w2 :: ws) := rfl

theorem isLower_isWhitespace_false {c : Char} (h : c.isLower = true) :
    c.isWhitespace = false := by
  by_contra hne
  rw [Bool.not_eq_false] at hne
  simp only [Char.isWhitespace, Bool.or_eq_true, decide_eq_true_eq] at hne
  rcases hne with ((h1 | h1) | h1) | h1 <;> subst h1 <;> revert h <;> decide

theorem DictWord.not_whitespace {w : Word} (hw : DictWord w) :
    ∀ c ∈ w, c.isWhitespace = false :=
  fun c hc => isLower_isWhitespace_false (hw.2 c hc)

theorem spaceFold_eq_flatten (ws : List Word) (acc : List Char) :
    List.foldl (fun acc w => acc ++ (' ' :: w)) acc ws =
      acc ++ (ws.map (fun w => ' ' :: w)).flatten := by
  induction ws generalizing acc with
  | nil => simp
  | cons w ws ih =>
    simp only [List.foldl_cons, List.map_cons, List.flatten_cons, ih, List.append_assoc]

theorem flatten_map_space_cons (w : Word) (ws : List Word) :
    ((w :: ws).map (fun w => ' ' :: w)).flatten = ' ' :: sepJoin (w :: ws) := by
  induction ws generalizing w with
  | nil => simp [sepJoin]
  | cons w2 ws ih =>
    simp only [List.map_cons, List.flatten_cons] at ih ⊢
    rw [sepJoin_cons_cons]
    rw [show (' ' :: w2) ++ (List.map (fun w => ' ' :: w) ws).flatten =
      ' ' :: sepJoin (w2 :: ws) from ih w2]
    simp

theorem spaceFold_cons (w : Word) (ws : List Word) :
    spaceFold (w :: ws) = ' ' :: sepJoin (w :: ws) := by
  rw [spaceFold, spaceFold_eq_flatten, flatten_map_space_cons]
  rfl

theorem trimStart_spaceFold (ws : List Word) (hgood : ∀ w ∈ ws, DictWord w) :
    trimStart (spaceFold ws) = sepJoin ws := by
  cases ws with
  | nil => rfl
  | cons w ws =>
    rw [spaceFold_cons]
    have hw : DictWord w := hgood w (List.mem_cons_self w ws)
    obtain ⟨c, w2, rfl⟩ : ∃ c w2, w = c :: w2 := by
      cases w with
      | nil => exact absurd rfl hw.1
      | cons c w2 => exact ⟨c, w2, rfl⟩
    have hc : c.isWhitespace = false :=
      hw.not_whitespace c (List.mem_cons_self c w2)
    have hhead : sepJoin ((c :: w2) :: ws) = c :: (w2 ++ if ws.isEmpty then []
        else ' ' :: sepJoin ws) := by
      cases ws with
      | nil => simp [sepJoin]
      | cons w3 ws => simp [sepJoin_cons_cons]
    rw [hhead, trimStart, List.dropWhile_cons, if_pos (by decide),
      List.dropWhile_cons, if_neg (by simp [hc])]

/-- The characters of `sepJoin ws` are spaces or characters of words of
`ws`. -/
theorem mem_sepJoin (ws : List Word) (c : Char) (hc : c ∈ sepJoin ws) :
    c = ' ' ∨ ∃ w ∈ ws, c ∈ w := by
  induction ws with
  | nil => cases hc
  | cons w ws ih =>
    cases ws with
    | nil =>
      right
      exact ⟨w, List.mem_cons_self w [], hc⟩
    | cons w2 ws2 =>
      rw [sepJoin_cons_cons] at hc
      rcases List.mem_append.1 hc with h | h
      · right
        exact ⟨w, List.mem_cons_self _ _, h⟩
      · rcases List.mem_cons.1 h with rfl | h2
        · left
          rfl
        · rcases ih h2 with h3 | ⟨w3, hw3, hcw3⟩
          · left
            exact h3
          · right
            exact ⟨w3, List.mem_cons_of_mem w hw3, hcw3⟩

theorem splitWSAux_token (w : Word) (rest : List Char) (acc : List Char)
    (hw : w ≠ []) (hnws : ∀ c ∈ w, c.isWhitespace = false) (hrest : headWS rest) :
    splitWSAux (w ++ rest) acc = (acc.reverse ++ w) :: splitWhitespace rest := by
  induction w generalizing acc with
  | nil => exact absurd rfl hw
  | cons c w2 ih =>
    have hc : c.isWhitespace = false := hnws c (List.mem_cons_self c w2)
    rw [List.cons_append, splitWSAux, if_neg (by simp [hc])]
    cases w2 with
    | cons d w3 =>
      rw [ih (c :: acc) (by simp) (fun x hx => hnws x (List.mem_cons_of_mem c hx))]
      simp
    | nil =>
      rw [List.nil_append]
      cases rest with
      | nil =>
        rw [splitWSAux, if_neg (by simp), splitWhitespace, splitWSAux]
        simp
      | cons r rs =>
        have hr : r.isWhitespace = true := hrest
        rw [splitWSAux, if_pos hr, if_neg (by simp), splitWhitespace, splitWSAux,
          if_pos hr, if_pos rfl]
        simp

theorem splitWhitespace_space_cons (cs : List Char) :
    splitWhitespace (' ' :: cs) = splitWhitespace cs := by
  rw [splitWhitespace, splitWSAux, if_pos (by decide), if_pos rfl]
  rfl

theorem splitWhitespace_sepJoin (ws : List Word) (hgood : ∀ w ∈ ws, DictWord w) :
    splitWhitespace (sepJoin ws) = ws := by
  induction ws with
  | nil => rfl
  | cons w ws ih =>
    have hw : DictWord w := hgood w (List.mem_cons_self w ws)
    cases ws with
    | nil =>
      have h := splitWSAux_token w [] [] hw.1 hw.not_whitespace trivial
      rw [List.append_nil] at h
      rw [show sepJoin [w] = w from rfl, splitWhitespace, h]
      rfl
    | cons w2 ws2 =>
      rw [sepJoin_cons_cons, splitWhitespace,
        splitWSAux_token w (' ' :: sepJoin (w2 :: ws2)) [] hw.1 hw.not_whitespace
          (by exact (by decide : (' ').isWhitespace = true)),
        splitWhitespace_space_cons,
        ih (fun x hx => hgood x (List.mem_cons_of_mem w hx))]
      rfl

/-- With a non-empty dictionary every draw succeeds: `chosenFrom` returns
`count` words, all members of the dictionary. -/
theorem chosenFrom_some (WORDS : List Word) (pick : Nat → Nat) (hne : WORDS ≠ []) :
    ∀ count i, ∃ ws, chosenFrom WORDS pick i count = some ws ∧
      ws.length = count ∧ ∀ w ∈ ws, w ∈ WORDS := by
  intro count
  induction count with
  | zero =>
    intro i
    exact ⟨[], rfl, rfl, by simp⟩
  | succ k ih =>
    intro i
    obtain ⟨ws, hws, hlen, hmem⟩ := ih (i + 1)
    have hchoose : choose WORDS (pick i) =
        some (WORDS.getD (pick i % WORDS.length) []) := by
      rw [choose, if_neg (by simp [hne])]
    have hlt : pick i % WORDS.length < WORDS.length :=
      Nat.mod_lt _ (List.length_pos.2 hne)
    have hmem0 : WORDS.getD (pick i % WORDS.length) [] ∈ WORDS := by
      rw [List.getD_eq_getElem?_getD, List.getElem?_eq_getElem hlt]
      exact List.getElem_mem hlt
    refine ⟨WORDS.getD (pick i % WORDS.length) [] :: ws, ?_, by simp [hlen], ?_⟩
    · rw [chosenFrom, hchoose, hws]
    · intro w hw
      rcases List.mem_cons.1 hw with rfl | h
      exacts [hmem0, hmem w h]

/-- The structural description of `random_phrase` with a non-empty
dictionary of well-formed words: it returns the `n` drawn words joined by
single spaces. -/
theorem random_phrase_sepJoin (WORDS : List Word) (pick : Nat → Nat) (n : Nat)
    (hne : WORDS ≠ []) (hgood : ∀ w ∈ WORDS, DictWord w) :
    ∃ ws, chosenWords WORDS pick n = some ws ∧ ws.length = n ∧
      (∀ w ∈ ws, w ∈ WORDS) ∧
      random_phrase WORDS pick n = some (sepJoin ws) := by
  obtain ⟨ws, hws, hlen, hmem⟩ := chosenFrom_some WORDS pick hne n 0
  refine ⟨ws, hws, hlen, hmem, ?_⟩
  rw [random_phrase, chosenWords, hws]
  show some (trimStart (spaceFold ws)) = some (sepJoin ws)
  rw [trimStart_spaceFold ws (fun w hw => hgood w (hmem w hw))]

/-- C8: with a non-empty dictionary, `random_phrase` never fails for any
word count and any outcome of the random source: every per-word `choose`
returns a word (the `unwrap` panic branch, modelled by `none`, is
unreachable). -/
theorem random_phrase_never_fails (WORDS : List Word) (pick : Nat → Nat) (n : Nat)
    (hne : WORDS ≠ []) : ∃ p, random_phrase WORDS pick n = some p := by
  obtain ⟨ws, hws, -, -⟩ := chosenFrom_some WORDS pick hne n 0
  refine ⟨trimStart (spaceFold ws), ?_⟩
  rw [random_phrase, chosenWords, hws]
  rfl

/-- Witness for C8: with the one-word dictionary `["ab"]`, a phrase of
three words is produced. -/
theorem random_phrase_never_fails_witness :
    ∃ p, random_phrase ["ab".data] (fun k => k) 3 = some p :=
  random_phrase_never_fails ["ab".data] (fun k => k) 3 (by decide)

/-- C3: round-trip — with a non-empty dictionary, for every `n ≥ 0` and
every outcome of the random source, the phrase generated by
`random_phrase(n)` validates successfully against a minimum of `n`. -/
theorem validate_random_phrase_roundtrip (WORDS : List Word) (pick : Nat → Nat) (n : Nat)
    (hne : WORDS ≠ []) (hgood : ∀ w ∈ WORDS, DictWord w) :
    ∃ p, random_phrase WORDS pick n = some p ∧ validate_phrase WORDS p n = .ok () := by
  obtain ⟨ws, hws, hlen, hmem, hp⟩ := random_phrase_sepJoin WORDS pick n hne hgood
  refine ⟨sepJoin ws, hp, ?_⟩
  rw [validate_ok_iff_mem,
    splitWhitespace_sepJoin ws (fun w hw => hgood w (hmem w hw))]
  exact ⟨hmem, by omega⟩

/-- Witness for C3: over the dictionary `["ab", "cde"]` the generated
two-word phrase validates against a minimum of 2. -/
theorem validate_random_phrase_roundtrip_witness :
    ∃ p, random_phrase ["ab".data, "cde".data] (fun k => k) 2 = some p ∧
      validate_phrase ["ab".data, "cde".data] p 2 = .ok () :=
  validate_random_phrase_roundtrip ["ab".data, "cde".data] (fun k => k) 2
    (by decide) (by decide)

/-- C5: with a non-empty dictionary, for every `n ≥ 0` and every outcome
of the random source, every whitespace-separated token of
`random_phrase(n)` is a member of the dictionary. -/
theorem random_phrase_tokens_mem (WORDS : List Word) (pick : Nat → Nat) (n : Nat)
    (hne : WORDS ≠ []) (hgood : ∀ w ∈ WORDS, DictWord w) :
    ∃ p, random_phrase WORDS pick n = some p ∧
      ∀ t ∈ splitWhitespace p, t ∈ WORDS := by
  obtain ⟨ws, hws, hlen, hmem, hp⟩ := random_phrase_sepJoin WORDS pick n hne hgood
  refine ⟨sepJoin ws, hp, ?_⟩
  rw [splitWhitespace_sepJoin ws (fun w hw => hgood w (hmem w hw))]
  exact hmem

/-- Witness for C5: every token of the generated three-word phrase over
`["ab", "cde"]` is a dictionary member. -/
theorem random_phrase_tokens_mem_witness :
    ∃ p, random_phrase ["ab".data, "cde".data] (fun k => k) 3 = some p ∧
      ∀ t ∈ splitWhitespace p, t ∈ ["ab".data, "cde".data] :=
  random_phrase_tokens_mem ["ab".data, "cde".data] (fun k => k) 3
    (by decide) (by decide)

theorem sepJoin_cons_ne_nil (w : Word) (ws : List Word) (hw : w ≠ []) :
    sepJoin (w :: ws) ≠ [] := by
  cases ws with
  | nil => exact hw
  | cons w2 ws2 =>
    rw [sepJoin_cons_cons]
    simp [hw]

theorem head?_sepJoin_lower (ws : List Word) (hgood : ∀ w ∈ ws, DictWord w)
    (c : Char) (hc : (sepJoin ws).head? = some c) : c.isLower = true := by
  cases ws with
  | nil => cases hc
  | cons w ws2 =>
    have hw : DictWord w := hgood w (List.mem_cons_self w ws2)
    obtain ⟨c0, w2, rfl⟩ : ∃ c0 w2, w = c0 :: w2 := by
      cases w with
      | nil => exact absurd rfl hw.1
      | cons c0 w2 => exact ⟨c0, w2, rfl⟩
    have hc0 : (sepJoin ((c0 :: w2) :: ws2)).head? = some c0 := by
      cases ws2 with
      | nil => rfl
      | cons w3 ws3 => rw [sepJoin_cons_cons]; rfl
    rw [hc0] at hc
    cases hc
    exact hw.2 _ (List.mem_cons_self _ _)

theorem getLast?_sepJoin_lower (ws : List Word) (hgood : ∀ w ∈ ws, DictWord w)
    (c : Char) (hc : (sepJoin ws).getLast? = some c) : c.isLower = true := by
  induction ws with
  | nil => cases hc
  | cons w ws2 ih =>
    cases ws2 with
    | nil =>
      have hw : DictWord w := hgood w (List.mem_cons_self w [])
      exact hw.2 c (List.mem_of_getLast?_eq_some hc)
    | cons w2 ws3 =>
      have hw2 : DictWord w2 := hgood w2 (List.mem_cons_of_mem w (List.mem_cons_self w2 ws3))
      have hne2 : sepJoin (w2 :: ws3) ≠ [] := sepJoin_cons_ne_nil w2 ws3 hw2.1
      obtain ⟨d, hd⟩ : ∃ d, (sepJoin (w2 :: ws3)).getLast? = some d := by
        cases hxl : (sepJoin (w2 :: ws3)).getLast? with
        | none => exact absurd (List.getLast?_eq_none_iff.1 hxl) hne2
        | some d => exact ⟨d, rfl⟩
      have hrw : (sepJoin (w :: w2 :: ws3)).getLast? = some d := by
        rw [sepJoin_cons_cons, List.getLast?_append, List.getLast?_cons, hd]
        rfl
      rw [hrw] at hc
      cases hc
      exact ih (fun x hx => hgood x (List.mem_cons_of_mem w hx)) hd

theorem isLower_ne_cr {c : Char} (h : c.isLower = true) : c ≠ '\x0d' := by
  intro hc
  subst hc
  revert h
  decide

theorem isLower_ne_nl {c : Char} (h : c.isLower = true) : c ≠ '\n' := by
  intro hc
  subst hc
  revert h
  decide

/-- C6: with a non-empty dictionary of well-formed words, the string
produced by `random_phrase(n)` consists of the selected words separated by
exactly one ASCII space each (`sepJoin`), has no leading and no trailing
whitespace, contains no carriage-return character anywhere, and does not
end in a newline character — for every `n` and every outcome of the random
source. -/
theorem random_phrase_shape (WORDS : List Word) (pick : Nat → Nat) (n : Nat)
    (hne : WORDS ≠ []) (hgood : ∀ w ∈ WORDS, DictWord w) :
    ∃ ws p, chosenWords WORDS pick n = some ws ∧
      random_phrase WORDS pick n = some p ∧
      p = sepJoin ws ∧
      (∀ c, p.head? = some c → c.isWhitespace = false) ∧
      (∀ c, p.getLast? = some c → c.isWhitespace = false) ∧
      (∀ c ∈ p, c ≠ '\x0d') ∧
      (∀ c, p.getLast? = some c → c ≠ '\n') := by
  obtain ⟨ws, hws, hlen, hmem, hp⟩ := random_phrase_sepJoin WORDS pick n hne hgood
  have hgws : ∀ w ∈ ws, DictWord w := fun w hw => hgood w (hmem w hw)
  refine ⟨ws, sepJoin ws, hws, hp, rfl, ?_, ?_, ?_, ?_⟩
  · intro c hc
    exact isLower_isWhitespace_false (head?_sepJoin_lower ws hgws c hc)
  · intro c hc
    exact isLower_isWhitespace_false (getLast?_sepJoin_lower ws hgws c hc)
  · intro c hc
    rcases mem_sepJoin ws c hc with rfl | ⟨w, hw, hcw⟩
    · decide
    · exact isLower_ne_cr ((hgws w hw).2 c hcw)
  · intro c hc
    exact isLower_ne_nl (getLast?_sepJoin_lower ws hgws c hc)

/-- Witness for C6: the concrete two-word dictionary `["ab", "cde"]` and a
three-word draw. -/
theorem random_phrase_shape_witness :
    ∃ ws p, chosenWords ["ab".data, "cde".data] (fun k => k) 3 = some ws ∧
      random_phrase ["ab".data, "cde".data] (fun k => k) 3 = some p ∧
      p = sepJoin ws ∧
      (∀ c, p.head? = some c → c.isWhitespace = false) ∧
      (∀ c, p.getLast? = some c → c.isWhitespace = false) ∧
      (∀ c ∈ p, c ≠ '\x0d') ∧
      (∀ c, p.getLast? = some c → c ≠ '\n') :=
  random_phrase_shape ["ab".data, "cde".data] (fun k => k) 3 (by decide) (by decide)

/-! ## Splitting on single spaces (Rust `str::split(" ")`, used by the
crate test `should_produce_right_number_of_words`) -/

theorem isLower_ne_space {c : Char} (h : c.isLower = true) : c ≠ ' ' := by
  intro hc
  subst hc
  revert h
  decide

theorem splitOnSpaceAux_token_nil (w : Word) (acc : List Char)
    (hw : ∀ c ∈ w, c ≠ ' ') : splitOnSpaceAux w acc = [acc.reverse ++ w] := by
  induction w generalizing acc with
  | nil => simp [splitOnSpaceAux]
  | cons c w2 ih =>
    rw [splitOnSpaceAux, if_neg (hw c (List.mem_cons_self c w2))]
    rw [ih (c :: acc) (fun x hx => hw x (List.mem_cons_of_mem c hx))]
    simp

theorem splitOnSpaceAux_token_space (w : Word) (t : List Char) (acc : List Char)
    (hw : ∀ c ∈ w, c ≠ ' ') :
    splitOnSpaceAux (w ++ ' ' :: t) acc = (acc.reverse ++ w) :: splitOnSpaceAux t [] := by
  induction w generalizing acc with
  | nil => simp [splitOnSpaceAux]
  | cons c w2 ih =>
    rw [List.cons_append, splitOnSpaceAux, if_neg (hw c (List.mem_cons_self c w2))]
    rw [ih (c :: acc) (fun x hx => hw x (List.mem_cons_of_mem c hx))]
    simp

theorem splitOnSpace_sepJoin (ws : List Word) (hws : ws ≠ [])
    (hgood : ∀ w ∈ ws, ∀ c ∈ w, c ≠ ' ') : splitOnSpace (sepJoin ws) = ws := by
  induction ws with
  | nil => exact absurd rfl hws
  | cons w ws2 ih =>
    have hw : ∀ c ∈ w, c ≠ ' ' := hgood w (List.mem_cons_self w ws2)
    cases ws2 with
    | nil =>
      rw [show sepJoin [w] = w from rfl, splitOnSpace,
        splitOnSpaceAux_token_nil w [] hw]
      rfl
    | cons w2 ws3 =>
      rw [sepJoin_cons_cons, splitOnSpace, splitOnSpaceAux_token_space w _ [] hw]
      rw [show splitOnSpaceAux (sepJoin (w2 :: ws3)) [] = splitOnSpace (sepJoin (w2 :: ws3))
        from rfl]
      rw [ih (by simp) (fun x hx => hgood x (List.mem_cons_of_mem w hx))]
      rfl

/-- Counterexample to C4 as stated: at `n = 0` the generated string is
empty, and splitting the empty string on single ASCII spaces yields one
(empty) segment, not zero segments. -/
theorem random_phrase_zero_split_count_ne :
    ∃ p, random_phrase [['a']] (fun k => k) 0 = some p ∧
      (splitOnSpace p).length ≠ 0 :=
  ⟨[], rfl, by decide⟩

/-- C4 (amended): `random_phrase(0)` produces the empty string (which
`split(" ")` reports as one empty segment, not zero), and for every
`n ≥ 1`, `random_phrase(n)` produces a string with exactly `n` segments
when split on single ASCII spaces. -/
theorem random_phrase_splitOnSpace_count (WORDS : List Word) (pick : Nat → Nat) (n : Nat)
    (hne : WORDS ≠ []) (hgood : ∀ w ∈ WORDS, DictWord w) :
    random_phrase WORDS pick 0 = some [] ∧
      (1 ≤ n → ∃ p, random_phrase WORDS pick n = some p ∧
        (splitOnSpace p).length = n) := by
  constructor
  · rfl
  · intro hn
    obtain ⟨ws, hws, hlen, hmem, hp⟩ := random_phrase_sepJoin WORDS pick n hne hgood
    refine ⟨sepJoin ws, hp, ?_⟩
    have hwsne : ws ≠ [] := by
      intro h
      subst h
      simp at hlen
      omega
    rw [splitOnSpace_sepJoin ws hwsne
      (fun w hw c hc => isLower_ne_space ((hgood w (hmem w hw)).2 c hc))]
    exact hlen

/-- Witness for the amended C4: over `["ab", "cde"]`, a zero-word draw is
the empty string and a two-word draw splits into two segments. -/
theorem random_phrase_splitOnSpace_count_witness :
    random_phrase ["ab".data, "cde".data] (fun k => k) 0 = some [] ∧
      ∃ p, random_phrase ["ab".data, "cde".data] (fun k => k) 2 = some p ∧
        (splitOnSpace p).length = 2 := by
  have h := random_phrase_splitOnSpace_count ["ab".data, "cde".data] (fun k => k) 2
    (by decide) (by decide)
  exact ⟨h.1, h.2 (by decide)⟩

/-! ## The displayed messages -/

/-- Counterexample to C9 as stated: the displayed text of
`PhraseTooShort 5` is not exactly the spec template — the `Display` impl
uses `writeln!`, which appends a newline character. -/
theorem error_display_not_template :
    Error.display (.PhraseTooShort 5) ≠ specMessage (.PhraseTooShort 5) := by
  decide

/-- C9 (amended): the displayed message of a validation error is exactly
the spec template followed by one newline character (`writeln!`), for
every count and every word. -/
theorem error_display_eq (e : Error) :
    Error.display e = specMessage e ++ ['\n'] := by
  cases e with
  | PhraseTooShort n => rfl
  | WordNotFromDictionary w => rfl
